import Mathlib

/-!
Verification development for the Avalanche normal-transactions ingestion
engine (src/config.py, src/utils.py, src/ingest.py).

The embedding below translates the ingestion cursor engine into Lean:
  * `Tx` is a raw transaction record (the fields the core reads).
  * `TState` is one entity's cursor state (the per-token dict of ingest.py).
  * `trim_ingestion` is the pure row-filtering step of utils.trim_ingestion
    (the month column and column drops do not change the retained row set).
  * `EntityEnv` packages the remote collaborators of one entity: the
    post-retry batch fetcher, the creation-block locator, and whether each
    save_buffer upload succeeds (a failed upload raises in Python; the
    walkers model that by returning the state mutated so far plus a flag,
    exactly as the orchestrator's try/except observes it).
  * `run_incremental`, `run_backfill`, `run_token_init`, `mainLoop`/`main`
    mirror ingest.py; `fetch_normal_batch` and `get_chain_tip` mirror the
    retrying fetcher and tip lookup of utils.py.
-/

/-- config.MAX_RESULT_SIZE (the page-size cap). -/
def MAX_RESULT_SIZE : Nat := 10000

/-- config.BATCHES_PER_RUN (the per-walker batch budget). -/
def BATCHES_PER_RUN : Nat := 10

/-- The sort direction of a fetch request. -/
inductive SortDir
  | asc
  | desc
deriving DecidableEq

/-- A raw transaction record: the fields the core reads.  Block numbers are
unbounded integers, as Python ints are. -/
structure Tx where
  blockNumber : Int
  timeStamp : Int
  hash : String
  isError : String
  functionName : Option String
deriving DecidableEq

/-- One entity's cursor state (the per-token dict persisted by ingest.py). -/
structure TState where
  initialized : Bool
  max_ingested_block : Int
  min_ingested_block : Int
  history_status : String
  creation_block : Int
deriving DecidableEq

/-- The default cursor state the orchestrator creates for a new symbol
(ingest.main, lines 209-215). -/
def defaultTState : TState :=
  { initialized := false
    max_ingested_block := 0
    min_ingested_block := 0
    history_status := "unfilled"
    creation_block := 0 }

/-- Strip whitespace from both ends of a character list (polars strip_chars
with no argument). -/
def trimChars (l : List Char) : List Char :=
  ((l.dropWhile Char.isWhitespace).reverse.dropWhile Char.isWhitespace).reverse

/-- The cleaned function name used by trim_ingestion's approve filter:
fill_null(""), split at "(" keeping the first part, lowercase, strip. -/
def cleanFunctionName (fn : Option String) : List Char :=
  trimChars (((fn.getD "").data.takeWhile (fun c => c ≠ '(')).map Char.toLower)

/-- Whether trim_ingestion retains a row: its cleaned function name is not
"approve" and its isError field is not "1". -/
def keepRow (t : Tx) : Bool :=
  (cleanFunctionName t.functionName != "approve".data) && (t.isError != "1")

/-- utils.trim_ingestion: None on an empty input, the retained rows after the
approve / isError filters otherwise, None when nothing is retained.  (The
month-column transform and column drops keep the row set unchanged.) -/
def trim_ingestion (buffer : List Tx) : Option (List Tx) :=
  match buffer with
  | [] => none
  | _ :: _ =>
    let kept := buffer.filter keepRow
    if kept.isEmpty then none else some kept

/-- Python max over the blockNumber column of a non-empty batch
(0 for an empty one; the walkers only apply it to non-empty batches). -/
def maxBlock : List Tx → Int
  | [] => 0
  | t :: ts => ts.foldl (fun a x => max a x.blockNumber) t.blockNumber

/-- Python min over the blockNumber column of a non-empty batch. -/
def minBlock : List Tx → Int
  | [] => 0
  | t :: ts => ts.foldl (fun a x => min a x.blockNumber) t.blockNumber

/-- The external collaborators one entity's processing talks to.
`fetch s e d` is the batch fetch_normal_batch returns for the request
`[s, e]` with sort `d` (after its internal retries; it never raises).
`creationLookup` is what get_contract_creation_block returns (0 = unknown).
`saveInit` / `saveInc i` / `saveBf i` say whether the save_buffer upload of
the initializer, of incremental iteration `i`, of backfill iteration `i`
succeeds; a failed upload raises in Python. -/
structure EntityEnv where
  fetch : Int → Int → SortDir → List Tx
  creationLookup : Int
  saveInit : Bool
  saveInc : Nat → Bool
  saveBf : Nat → Bool

/-- The remote-API range contract: every record of a fetched batch has a
blockNumber inside the requested block range. -/
def Contract (env : EntityEnv) : Prop :=
  ∀ s e d t, t ∈ env.fetch s e d → s ≤ t.blockNumber ∧ t.blockNumber ≤ e

/-- The environment facts the proofs use: the range contract, and that the
creation locator returns a non-negative block (it parses a hex string or
returns 0). -/
def WfEnv (env : EntityEnv) : Prop :=
  Contract env ∧ 0 ≤ env.creationLookup

/-- The forward walker's boundary advance (ingest.run_incremental lines
61-66): one past the batch maximum when the whole page sat in the boundary
block (stuck guard), the batch maximum itself otherwise (overlap). -/
def nextStartInc (current_start max_block : Int) : Int :=
  if current_start = max_block then max_block + 1 else max_block

/-- The backward walker's boundary retreat (ingest.run_backfill lines
173-178). -/
def nextFloorBf (current_floor min_block : Int) : Int :=
  if current_floor = min_block then min_block - 1 else min_block

/-- The loop of ingest.run_incremental.  Returns the cursor state as mutated
so far, plus whether an exception escaped (only a failed save_buffer upload
raises; the orchestrator catches it). -/
def incLoop (env : EntityEnv) (chain_tip : Int) :
    Nat → Nat → Int → TState → TState × Bool
  | 0, _, _, t_state => (t_state, false)
  | fuel + 1, iter, current_start, t_state =>
    let batch := env.fetch current_start chain_tip SortDir.asc
    if batch = [] then (t_state, false)
    else
      match trim_ingestion batch with
      | none => (t_state, false)
      | some _ =>
        if env.saveInc iter = false then (t_state, true)
        else
          let max_block := maxBlock batch
          let t1 := { t_state with max_ingested_block := max_block }
          if batch.length < MAX_RESULT_SIZE then (t1, false)
          else
            let ns := nextStartInc current_start max_block
            if chain_tip < ns then (t1, false)
            else incLoop env chain_tip fuel (iter + 1) ns t1

/-- ingest.run_incremental: the forward walk from max_ingested_block + 1
toward the chain tip. -/
def run_incremental (env : EntityEnv) (t_state : TState) (chain_tip : Int) :
    TState × Bool :=
  let start_block := t_state.max_ingested_block + 1
  if chain_tip < start_block then (t_state, false)
  else incLoop env chain_tip BATCHES_PER_RUN 0 start_block t_state

/-- ingest.run_token_init: bootstrap an uninitialized entity.  The creation
block is written unconditionally (line 80) before the single descending
fetch; a failed save_buffer upload raises after that write and before the
cursor writes. -/
def run_token_init (env : EntityEnv) (chain_tip : Int) (t_state : TState) :
    TState × Bool :=
  let creation_block := env.creationLookup
  let t0 := { t_state with creation_block := creation_block }
  let batch := env.fetch 0 chain_tip SortDir.desc
  if batch = [] then ({ t0 with initialized := true }, false)
  else
    let threw := match trim_ingestion batch with
      | none => false
      | some _ => !env.saveInit
    if threw then (t0, true)
    else
      let maxb := maxBlock batch
      let minb := minBlock batch
      let t1 := { t0 with max_ingested_block := maxb, min_ingested_block := minb }
      let t2 := if minb ≤ creation_block ∧ 0 < creation_block
        then { t1 with history_status := "filled" } else t1
      ({ t2 with initialized := true }, false)

/-- The loop of ingest.run_backfill. -/
def bfLoop (env : EntityEnv) (creation_block : Int) :
    Nat → Nat → Int → TState → TState × Bool
  | 0, _, _, t_state => (t_state, false)
  | fuel + 1, iter, current_floor, t_state =>
    let target_start := if 0 < creation_block then creation_block else 0
    let batch := env.fetch target_start current_floor SortDir.desc
    if batch = [] then
      if 0 < target_start then
        ({ t_state with history_status := "filled",
                        min_ingested_block := target_start }, false)
      else (t_state, false)
    else
      match trim_ingestion batch with
      | none => (t_state, false)
      | some _ =>
        if env.saveBf iter = false then (t_state, true)
        else
          let min_block := minBlock batch
          let t1 := { t_state with min_ingested_block := min_block }
          if batch.length < MAX_RESULT_SIZE then
            ({ t1 with history_status := "filled",
                       min_ingested_block := creation_block }, false)
          else
            let nf := nextFloorBf current_floor min_block
            if nf ≤ creation_block ∧ 0 < creation_block then
              ({ t1 with history_status := "filled",
                         min_ingested_block := creation_block }, false)
            else bfLoop env creation_block fuel (iter + 1) nf t1

/-- ingest.run_backfill: the backward walk from min_ingested_block toward
the creation block (resolved lazily when still 0). -/
def run_backfill (env : EntityEnv) (t_state : TState) : TState × Bool :=
  if t_state.history_status = "filled" then (t_state, false)
  else
    let cb0 := t_state.creation_block
    let p :=
      if cb0 = 0 then
        let cb := env.creationLookup
        if 0 < cb then (cb, { t_state with creation_block := cb })
        else (0, t_state)
      else (cb0, t_state)
    let creation_block := p.1
    let t1 := p.2
    let current_floor := t1.min_ingested_block
    if 0 < creation_block ∧ current_floor ≤ creation_block then
      ({ t1 with history_status := "filled" }, false)
    else bfLoop env creation_block BATCHES_PER_RUN 0 current_floor t1

/-- config.TokenDef: one tracked entity (only the symbol routes state; the
address only parametrizes the remote calls, which EntityEnv already fixes
per symbol). -/
structure Token where
  symbol : String
  address : String
deriving DecidableEq

/-- The global cursor mapping (state["tokens"]), as an association list in
insertion order, which is how a JSON object round-trips. -/
abbrev GlobalState := List (String × TState)

/-- Dictionary lookup on the global cursor mapping. -/
def lookupT : GlobalState → String → Option TState
  | [], _ => none
  | (k, v) :: rest, sym => if k = sym then some v else lookupT rest sym

/-- Dictionary write: replace the symbol's entry, or append a new one. -/
def setT : GlobalState → String → TState → GlobalState
  | [], sym, v => [(sym, v)]
  | (k, w) :: rest, sym, v =>
    if k = sym then (sym, v) :: rest else (k, w) :: setT rest sym v

/-- The outcome of the one HTTP request of utils.get_chain_tip: an exception
(transport failure, bad JSON, unparsable hex), a JSON body without a
"result" key, or a parsed result. -/
inductive TipResp
  | err
  | noResult
  | ok (n : Int)

/-- utils.get_chain_tip: the parsed result on success, and 0 both when the
body has no "result" key and when any exception occurs (the internal
try/except catches everything) — so it never raises. -/
def get_chain_tip : TipResp → Int
  | TipResp.err => 0
  | TipResp.noResult => 0
  | TipResp.ok n => n

/-- The environment of one orchestrator run: the tip request's outcome and
each symbol's entity collaborators. -/
structure RunEnv where
  tip : TipResp
  perToken : String → EntityEnv

/-- What ingest.main does for one token once its default state exists: run
the initializer when uninitialized, else the forward then the backward
walker (each walker's exception is caught and the mutated state kept).
The Bool is whether the initializer raised (main then skips that token's
save); walker exceptions never reach the save decision. -/
def processEntity (env : EntityEnv) (chain_tip : Int) (t : TState) :
    TState × Bool :=
  if t.initialized = false then run_token_init env chain_tip t
  else
    let t1 := (run_incremental env t chain_tip).1
    let t2 := (run_backfill env t1).1
    (t2, false)

/-- The token loop of ingest.main: insert the default state for unseen
symbols, process the entity, and persist the whole mapping (save_state
serializes the entire state object) — except when the initializer raised,
in which case main continues to the next token without saving.  The second
component collects every snapshot save_state wrote, in order. -/
def mainLoop (env : RunEnv) (chain_tip : Int) :
    List Token → GlobalState → List GlobalState → GlobalState × List GlobalState
  | [], state, saves => (state, saves)
  | tok :: rest, state, saves =>
    let state1 := match lookupT state tok.symbol with
      | none => setT state tok.symbol defaultTState
      | some _ => state
    let t := (lookupT state1 tok.symbol).getD defaultTState
    let r := processEntity (env.perToken tok.symbol) chain_tip t
    let state2 := setT state1 tok.symbol r.1
    if r.2 then mainLoop env chain_tip rest state2 saves
    else mainLoop env chain_tip rest state2 (saves ++ [state2])

/-- ingest.main: load the state, fetch the chain tip, walk the token list.
get_chain_tip never raises (it degrades every failure to 0), so the
try/except around it in main never fires and the loop always runs. -/
def mainRun (env : RunEnv) (tokens : List Token) (state : GlobalState) :
    GlobalState × List GlobalState :=
  mainLoop env (get_chain_tip env.tip) tokens state []

/-- The outcome of one HTTP attempt inside utils.fetch_normal_batch: an
exception anywhere in the attempt (transport failure, bad JSON, a missing
key — all caught by the per-attempt try/except), or a decoded response. -/
inductive FetchAttempt
  | transportErr
  | response (status : String) (message : String) (result : List Tx)

/-- What one attempt of fetch_normal_batch yields: the result array when
status is "1", an empty batch on the "No transactions found" sentinel,
nothing (retry) otherwise. -/
def fetchAttemptResult : FetchAttempt → Option (List Tx)
  | FetchAttempt.transportErr => none
  | FetchAttempt.response status message result =>
    if status = "1" then some result
    else if message = "No transactions found" then some []
    else none

/-- The retry loop of fetch_normal_batch over attempt indices `i`,
`i + 1`, ... with `fuel` attempts left; an empty list once the budget is
exhausted. -/
def fetchRetry (attempts : Nat → FetchAttempt) : Nat → Nat → List Tx
  | _, 0 => []
  | i, fuel + 1 =>
    match fetchAttemptResult (attempts i) with
    | some r => r
    | none => fetchRetry attempts (i + 1) fuel

/-- utils.fetch_normal_batch: up to 2 attempts (range(2)), then an empty
batch.  It never raises: every exception class is caught inside the loop. -/
def fetch_normal_batch (attempts : Nat → FetchAttempt) : List Tx :=
  fetchRetry attempts 0 2

/-- A failing attempt in the sense of the retry contract: an exception, or a
non-success status whose message is not the no-data sentinel. -/
def attemptFails : FetchAttempt → Prop
  | FetchAttempt.transportErr => True
  | FetchAttempt.response status message _ =>
    status ≠ "1" ∧ message ≠ "No transactions found"

/-- The reachability invariant of one persisted cursor state: watermarks and
creation block are non-negative, an uninitialized entity still has the
default watermarks (the initializer only writes them in the same statement
block that sets initialized), and an initialized entity has
min_ingested_block ≤ max_ingested_block. -/
def InvT (t : TState) : Prop :=
  0 ≤ t.max_ingested_block ∧ 0 ≤ t.min_ingested_block ∧
  0 ≤ t.creation_block ∧
  (t.initialized = false → t.max_ingested_block = 0 ∧ t.min_ingested_block = 0) ∧
  (t.initialized = true → t.min_ingested_block ≤ t.max_ingested_block)

/-- Every entry of a global cursor mapping satisfies the invariant. -/
def InvG (gs : GlobalState) : Prop :=
  ∀ sym t, lookupT gs sym = some t → InvT t

/-- The per-entity watermark monotonicity relation between an earlier and a
later cursor state: max_ingested_block never decreases, and once
initialized an entity stays initialized and min_ingested_block never
increases. -/
def MonoT (a b : TState) : Prop :=
  a.max_ingested_block ≤ b.max_ingested_block ∧
  (a.initialized = true →
    b.initialized = true ∧ b.min_ingested_block ≤ a.min_ingested_block)

/-- Monotonicity between two global cursor mappings: entries are never
removed and each evolves monotonically. -/
def MonoG (g1 g2 : GlobalState) : Prop :=
  ∀ sym a, lookupT g1 sym = some a →
    ∃ b, lookupT g2 sym = some b ∧ MonoT a b

/-- An entity environment whose remote side returns nothing: every fetch is
empty, the creation lookup fails, uploads succeed. -/
def quietEnv : EntityEnv :=
  { fetch := fun _ _ _ => []
    creationLookup := 0
    saveInit := true
    saveInc := fun _ => true
    saveBf := fun _ => true }

/-- A run environment with tip 40 and quiet entities. -/
def quietRunEnv : RunEnv :=
  { tip := TipResp.ok 40, perToken := fun _ => quietEnv }

/-- An initialized cursor state used by several concrete scenarios. -/
def tMid : TState :=
  { initialized := true, max_ingested_block := 100, min_ingested_block := 50,
    history_status := "unfilled", creation_block := 0 }

/-- A record the trimmer drops: isError = "1". -/
def cexErrTx : Tx :=
  { blockNumber := 50, timeStamp := 0, hash := "h", isError := "1",
    functionName := none }

/-- Entity environment for the trim-empty scenario: the forward request
[11, 100] returns one record (in range) that the trimmer drops. -/
def cexTrimEnv : EntityEnv :=
  { fetch := fun s e d =>
      if s = 11 ∧ e = 100 ∧ d = SortDir.asc then [cexErrTx] else []
    creationLookup := 0
    saveInit := true
    saveInc := fun _ => true
    saveBf := fun _ => true }

/-- An initialized state with head 10, floor 5. -/
def cexTrimSt : TState :=
  { initialized := true, max_ingested_block := 10, min_ingested_block := 5,
    history_status := "unfilled", creation_block := 0 }

/-- A clean record at block 30. -/
def cexTxA : Tx :=
  { blockNumber := 30, timeStamp := 0, hash := "h1", isError := "0",
    functionName := none }

/-- Run-1 environment of token A in the two-run scenario: the initializer's
descending fetch over [0, 40] returns one clean record at block 30, the
creation lookup resolves to 7, and the initializer's save_buffer upload
fails (raises). -/
def cexEnvA1 : EntityEnv :=
  { fetch := fun s e d =>
      if s = 0 ∧ e = 40 ∧ d = SortDir.desc then [cexTxA] else []
    creationLookup := 7
    saveInit := false
    saveInc := fun _ => true
    saveBf := fun _ => true }

/-- Run-2 environment of token A: same remote data, upload now succeeds. -/
def cexEnvA2 : EntityEnv := { cexEnvA1 with saveInit := true }

/-- The two tracked tokens of the two-run scenario. -/
def cexToks : List Token :=
  [{ symbol := "A", address := "a" }, { symbol := "B", address := "b" }]

/-- Run-1 environment: tip 40, A as above, B quiet. -/
def cexRun1Env : RunEnv :=
  { tip := TipResp.ok 40
    perToken := fun sym => if sym = "A" then cexEnvA1 else quietEnv }

/-- Run-2 environment: tip 40, A with a working upload, B quiet. -/
def cexRun2Env : RunEnv :=
  { tip := TipResp.ok 40
    perToken := fun sym => if sym = "A" then cexEnvA2 else quietEnv }

/-- The persisted mapping before run 1: only B, already initialized. -/
def cexGs0 : GlobalState := [("B", tMid)]

/-- The state run 1 leaves: main's one save (after B) and its final state. -/
def cexRun1 : GlobalState × List GlobalState := mainRun cexRun1Env cexToks cexGs0

/-- Run 2, started from run 1's persisted state. -/
def cexRun2 : GlobalState × List GlobalState := mainRun cexRun2Env cexToks cexRun1.1

/-- A run environment whose tip request fails and whose one token is quiet. -/
def cexTipEnv : RunEnv := { tip := TipResp.err, perToken := fun _ => quietEnv }

/-- Two clean records at blocks 900 and 250. -/
def cexBfTx1 : Tx :=
  { blockNumber := 250, timeStamp := 0, hash := "h1", isError := "0",
    functionName := none }

def cexBfTx2 : Tx :=
  { blockNumber := 900, timeStamp := 0, hash := "h2", isError := "0",
    functionName := none }

/-- Backfill scenario with unknown origin: the descending request [0, 1000]
returns a partial page (2 records, blocks 900 and 250). -/
def cexBfEnv : EntityEnv :=
  { fetch := fun s e d =>
      if s = 0 ∧ e = 1000 ∧ d = SortDir.desc then [cexBfTx2, cexBfTx1] else []
    creationLookup := 0
    saveInit := true
    saveInc := fun _ => true
    saveBf := fun _ => true }

/-- The entity state of the unknown-origin backfill scenario. -/
def cexBfSt : TState :=
  { initialized := true, max_ingested_block := 2000,
    min_ingested_block := 1000, history_status := "unfilled",
    creation_block := 0 }

/-- An uninitialized cursor state whose creation block is already set
(non-zero), as a failed earlier initialization leaves it. -/
def cexC9St : TState :=
  { initialized := false, max_ingested_block := 0, min_ingested_block := 0,
    history_status := "unfilled", creation_block := 7 }

/-- A page-size batch sitting entirely in block 77. -/
def wFloodTx : Tx :=
  { blockNumber := 77, timeStamp := 0, hash := "h", isError := "0",
    functionName := none }

def wFloodBatch : List Tx := List.replicate MAX_RESULT_SIZE wFloodTx

/-- A one-record batch at block 9. -/
def wSmallBatch : List Tx :=
  [{ blockNumber := 9, timeStamp := 0, hash := "h", isError := "0",
     functionName := none }]

/-- A clean record at block 5 and an environment returning it for every
request: used to witness the watermark-from-raw-batch theorems. -/
def wTx5 : Tx :=
  { blockNumber := 5, timeStamp := 0, hash := "h", isError := "0",
    functionName := none }

def wTx5Env : EntityEnv :=
  { fetch := fun _ _ _ => [wTx5]
    creationLookup := 0
    saveInit := true
    saveInc := fun _ => true
    saveBf := fun _ => true }

/-- An environment every one of whose fetches returns the single record the
trimmer drops. -/
def wErrEnv : EntityEnv :=
  { fetch := fun _ _ _ => [cexErrTx]
    creationLookup := 0
    saveInit := true
    saveInc := fun _ => true
    saveBf := fun _ => true }

/-- The single token and mapping of the quiet witness run. -/
def wTok : Token := { symbol := "T", address := "t" }

def wGs : GlobalState := [("T", tMid)]

lemma foldl_max_ge_init (l : List Tx) (a : Int) :
    a ≤ l.foldl (fun b x => max b x.blockNumber) a := by
  induction l generalizing a with
  | nil => simp
  | cons x xs ih => exact le_trans (le_max_left a x.blockNumber) (ih _)

lemma foldl_max_le (l : List Tx) (a c : Int) (ha : a ≤ c)
    (h : ∀ x ∈ l, x.blockNumber ≤ c) :
    l.foldl (fun b x => max b x.blockNumber) a ≤ c := by
  induction l generalizing a with
  | nil => simpa
  | cons x xs ih =>
    exact ih _ (max_le ha (h x (List.mem_cons_self x xs)))
      (fun y hy => h y (List.mem_cons_of_mem _ hy))

lemma foldl_min_le_init (l : List Tx) (a : Int) :
    l.foldl (fun b x => min b x.blockNumber) a ≤ a := by
  induction l generalizing a with
  | nil => simp
  | cons x xs ih => exact le_trans (ih _) (min_le_left a x.blockNumber)

lemma foldl_min_ge (l : List Tx) (a c : Int) (ha : c ≤ a)
    (h : ∀ x ∈ l, c ≤ x.blockNumber) :
    c ≤ l.foldl (fun b x => min b x.blockNumber) a := by
  induction l generalizing a with
  | nil => simpa
  | cons x xs ih =>
    exact ih _ (le_min ha (h x (List.mem_cons_self x xs)))
      (fun y hy => h y (List.mem_cons_of_mem _ hy))

lemma le_maxBlock (l : List Tx) (c : Int) (hne : l ≠ [])
    (h : ∀ x ∈ l, c ≤ x.blockNumber) : c ≤ maxBlock l := by
  cases l with
  | nil => exact absurd rfl hne
  | cons x xs =>
    exact le_trans (h x (List.mem_cons_self x xs))
      (foldl_max_ge_init xs x.blockNumber)

lemma maxBlock_le (l : List Tx) (c : Int) (hne : l ≠ [])
    (h : ∀ x ∈ l, x.blockNumber ≤ c) : maxBlock l ≤ c := by
  cases l with
  | nil => exact absurd rfl hne
  | cons x xs =>
    exact foldl_max_le xs x.blockNumber c (h x (List.mem_cons_self x xs))
      (fun y hy => h y (List.mem_cons_of_mem _ hy))

lemma minBlock_le (l : List Tx) (c : Int) (hne : l ≠ [])
    (h : ∀ x ∈ l, x.blockNumber ≤ c) : minBlock l ≤ c := by
  cases l with
  | nil => exact absurd rfl hne
  | cons x xs =>
    exact le_trans (foldl_min_le_init xs x.blockNumber)
      (h x (List.mem_cons_self x xs))

lemma le_minBlock (l : List Tx) (c : Int) (hne : l ≠ [])
    (h : ∀ x ∈ l, c ≤ x.blockNumber) : c ≤ minBlock l := by
  cases l with
  | nil => exact absurd rfl hne
  | cons x xs =>
    exact foldl_min_ge xs x.blockNumber c (h x (List.mem_cons_self x xs))
      (fun y hy => h y (List.mem_cons_of_mem _ hy))

lemma minBlock_le_maxBlock (l : List Tx) (hne : l ≠ []) :
    minBlock l ≤ maxBlock l := by
  cases l with
  | nil => exact absurd rfl hne
  | cons x xs =>
    exact le_trans (foldl_min_le_init xs x.blockNumber)
      (foldl_max_ge_init xs x.blockNumber)

lemma maxBlock_eq_of_all (l : List Tx) (s : Int) (hne : l ≠ [])
    (h : ∀ x ∈ l, x.blockNumber = s) : maxBlock l = s :=
  le_antisymm (maxBlock_le l s hne (fun x hx => le_of_eq (h x hx)))
    (le_maxBlock l s hne (fun x hx => ge_of_eq (h x hx)))

lemma minBlock_eq_of_all (l : List Tx) (s : Int) (hne : l ≠ [])
    (h : ∀ x ∈ l, x.blockNumber = s) : minBlock l = s :=
  le_antisymm (minBlock_le l s hne (fun x hx => le_of_eq (h x hx)))
    (le_minBlock l s hne (fun x hx => ge_of_eq (h x hx)))
lemma incLoop_frame (env : EntityEnv) (chain_tip : Int) :
    ∀ (fuel iter : Nat) (current_start : Int) (t : TState),
      (incLoop env chain_tip fuel iter current_start t).1.min_ingested_block =
          t.min_ingested_block ∧
      (incLoop env chain_tip fuel iter current_start t).1.initialized =
          t.initialized ∧
      (incLoop env chain_tip fuel iter current_start t).1.history_status =
          t.history_status ∧
      (incLoop env chain_tip fuel iter current_start t).1.creation_block =
          t.creation_block := by
  intro fuel
  induction fuel with
  | zero => intro iter cs t; simp [incLoop]
  | succ n ih =>
    intro iter cs t
    simp only [incLoop]
    split
    · simp
    · split
      · simp
      · split
        · simp
        · split
          · simp
          · split
            · simp
            · simpa using ih (iter + 1) _ _

lemma incLoop_max (env : EntityEnv) (chain_tip : Int) (hc : Contract env) :
    ∀ (fuel iter : Nat) (current_start : Int) (t : TState),
      t.max_ingested_block ≤ current_start →
      t.max_ingested_block ≤
        (incLoop env chain_tip fuel iter current_start t).1.max_ingested_block := by
  intro fuel
  induction fuel with
  | zero => intro iter cs t h; simp [incLoop]
  | succ n ih =>
    intro iter cs t h
    have hmb : env.fetch cs chain_tip SortDir.asc ≠ [] →
        cs ≤ maxBlock (env.fetch cs chain_tip SortDir.asc) := by
      intro hne
      exact le_maxBlock _ cs hne (fun x hx => (hc _ _ _ x hx).1)
    simp only [incLoop]
    split
    · exact le_refl _
    · next hne =>
      split
      · exact le_refl _
      · split
        · exact le_refl _
        · split
          · exact le_trans h (hmb hne)
          · split
            · exact le_trans h (hmb hne)
            · refine le_trans (le_trans h (hmb hne)) (ih (iter + 1) _ _ ?_)
              show maxBlock _ ≤ nextStartInc cs _
              unfold nextStartInc
              split
              · exact le_of_lt (lt_add_one _)
              · exact le_refl _

lemma run_incremental_frame (env : EntityEnv) (t : TState) (chain_tip : Int) :
    (run_incremental env t chain_tip).1.min_ingested_block =
        t.min_ingested_block ∧
    (run_incremental env t chain_tip).1.initialized = t.initialized ∧
    (run_incremental env t chain_tip).1.history_status = t.history_status ∧
    (run_incremental env t chain_tip).1.creation_block = t.creation_block := by
  simp only [run_incremental]
  split
  · simp
  · exact incLoop_frame env chain_tip BATCHES_PER_RUN 0 _ t

lemma run_incremental_max (env : EntityEnv) (t : TState) (chain_tip : Int)
    (hc : Contract env) :
    t.max_ingested_block ≤
      (run_incremental env t chain_tip).1.max_ingested_block := by
  simp only [run_incremental]
  split
  · exact le_refl _
  · exact incLoop_max env chain_tip hc BATCHES_PER_RUN 0 _ t
      (le_of_lt (lt_add_one _))

lemma bfLoop_frame (env : EntityEnv) (creation_block : Int) :
    ∀ (fuel iter : Nat) (current_floor : Int) (t : TState),
      (bfLoop env creation_block fuel iter current_floor t).1.max_ingested_block =
          t.max_ingested_block ∧
      (bfLoop env creation_block fuel iter current_floor t).1.initialized =
          t.initialized ∧
      (bfLoop env creation_block fuel iter current_floor t).1.creation_block =
          t.creation_block := by
  intro fuel
  induction fuel with
  | zero => intro iter cf t; simp [bfLoop]
  | succ n ih =>
    intro iter cf t
    simp only [bfLoop]
    generalize (if 0 < creation_block then creation_block else (0 : Int)) = tg
    split
    · split
      · simp
      · simp
    · split
      · simp
      · split
        · simp
        · split
          · simp
          · split
            · simp
            · simpa using ih (iter + 1) _ _

lemma bfLoop_min (env : EntityEnv) (creation_block : Int) (hc : Contract env)
    (hcb : 0 ≤ creation_block) :
    ∀ (fuel iter : Nat) (current_floor : Int) (t : TState),
      creation_block ≤ t.min_ingested_block →
      current_floor ≤ t.min_ingested_block →
      creation_block ≤
          (bfLoop env creation_block fuel iter current_floor t).1.min_ingested_block ∧
      (bfLoop env creation_block fuel iter current_floor t).1.min_ingested_block ≤
          t.min_ingested_block := by
  intro fuel
  induction fuel with
  | zero => intro iter cf t h1 h2; exact ⟨h1, le_refl _⟩
  | succ n ih =>
    intro iter cf t h1 h2
    have h0min : (0 : Int) ≤ t.min_ingested_block := le_trans hcb h1
    simp only [bfLoop]
    generalize hg : (if 0 < creation_block then creation_block else (0 : Int)) = tg
    have htg1 : creation_block ≤ tg := by
      rw [← hg]
      split
      · exact le_refl _
      · next h => exact not_lt.mp h
    have htg2 : (0 : Int) ≤ tg := by
      rw [← hg]
      split
      · next h => exact le_of_lt h
      · exact le_refl _
    have htg3 : tg ≤ t.min_ingested_block := by
      rw [← hg]
      split
      · exact h1
      · exact h0min
    split
    · -- empty batch
      split
      · exact ⟨htg1, htg3⟩
      · exact ⟨h1, le_refl _⟩
    · next hne =>
      have hmle : minBlock (env.fetch tg cf SortDir.desc) ≤ cf :=
        minBlock_le _ cf hne (fun x hx => (hc _ _ _ x hx).2)
      have hmge : creation_block ≤ minBlock (env.fetch tg cf SortDir.desc) :=
        le_trans htg1 (le_minBlock _ tg hne (fun x hx => (hc _ _ _ x hx).1))
      split
      · exact ⟨h1, le_refl _⟩
      · split
        · exact ⟨h1, le_refl _⟩
        · split
          · -- partial page: min snapped to creation_block
            exact ⟨le_refl _, h1⟩
          · split
            · -- crossed creation block: min snapped to creation_block
              exact ⟨le_refl _, h1⟩
            · -- recurse
              have hnf : nextFloorBf cf (minBlock (env.fetch tg cf SortDir.desc)) ≤
                  minBlock (env.fetch tg cf SortDir.desc) := by
                unfold nextFloorBf
                split
                · exact le_of_lt (sub_one_lt _)
                · exact le_refl _
              have hrec := ih (iter + 1)
                (nextFloorBf cf (minBlock (env.fetch tg cf SortDir.desc)))
                { t with min_ingested_block :=
                    minBlock (env.fetch tg cf SortDir.desc) } hmge hnf
              exact ⟨hrec.1, le_trans hrec.2 (le_trans hmle h2)⟩

lemma bfLoop_run_spec (env : EntityEnv) (hc : Contract env) (cb : Int)
    (t1 : TState) (hcb : 0 ≤ cb) (hcbmin : cb ≤ t1.min_ingested_block)
    (hI1 : InvT t1) (hinit1 : t1.initialized = true) :
    InvT (bfLoop env cb BATCHES_PER_RUN 0 t1.min_ingested_block t1).1 ∧
    (bfLoop env cb BATCHES_PER_RUN 0 t1.min_ingested_block t1).1.max_ingested_block =
        t1.max_ingested_block ∧
    (bfLoop env cb BATCHES_PER_RUN 0 t1.min_ingested_block t1).1.min_ingested_block ≤
        t1.min_ingested_block ∧
    (bfLoop env cb BATCHES_PER_RUN 0 t1.min_ingested_block t1).1.initialized = true ∧
    (bfLoop env cb BATCHES_PER_RUN 0 t1.min_ingested_block t1).1.creation_block =
        t1.creation_block := by
  obtain ⟨hmax0, hmin0, hcr0, hninit, hinitle⟩ := hI1
  have hf := bfLoop_frame env cb BATCHES_PER_RUN 0 t1.min_ingested_block t1
  have hm := bfLoop_min env cb hc hcb BATCHES_PER_RUN 0 t1.min_ingested_block t1
    hcbmin (le_refl _)
  refine ⟨⟨?_, ?_, ?_, ?_, ?_⟩, hf.1, hm.2, ?_, hf.2.2⟩
  · rw [hf.1]; exact hmax0
  · exact le_trans hcb hm.1
  · rw [hf.2.2]; exact hcr0
  · intro hfalse
    rw [hf.2.1, hinit1] at hfalse
    exact absurd hfalse (by decide)
  · intro _
    rw [hf.1]
    exact le_trans hm.2 (hinitle hinit1)
  · rw [hf.2.1]; exact hinit1

lemma run_backfill_spec (env : EntityEnv) (t : TState) (hw : WfEnv env)
    (hI : InvT t) (hinit : t.initialized = true) :
    InvT (run_backfill env t).1 ∧
    (run_backfill env t).1.max_ingested_block = t.max_ingested_block ∧
    (run_backfill env t).1.min_ingested_block ≤ t.min_ingested_block ∧
    (run_backfill env t).1.initialized = true ∧
    (0 < t.creation_block →
      (run_backfill env t).1.creation_block = t.creation_block) := by
  obtain ⟨hc, hlk⟩ := hw
  obtain ⟨hmax0, hmin0, hcr0, hnin, hinitle⟩ := hI
  by_cases hst : t.history_status = "filled"
  · simp only [run_backfill, if_pos hst]
    exact ⟨⟨hmax0, hmin0, hcr0, hnin, hinitle⟩, trivial, le_refl _, hinit,
      fun _ => trivial⟩
  · by_cases hcb0 : t.creation_block = 0
    · by_cases hpos : 0 < env.creationLookup
      · simp only [run_backfill, if_neg hst, if_pos hcb0, if_pos hpos]
        split
        · refine ⟨⟨hmax0, hmin0, le_of_lt hpos, ?_, fun _ => hinitle hinit⟩,
            rfl, le_refl _, hinit, ?_⟩
          · intro hfalse
            exact absurd hfalse (by simp [hinit])
          · intro h
            rw [hcb0] at h
            exact absurd h (lt_irrefl 0)
        · next hfin =>
          have hcbmin : env.creationLookup ≤ t.min_ingested_block := by
            rcases not_and_or.mp hfin with h | h
            · exact absurd hpos h
            · exact le_of_lt (not_le.mp h)
          have hI1 : InvT { t with creation_block := env.creationLookup } :=
            ⟨hmax0, hmin0, le_of_lt hpos, fun hf => hnin hf,
              fun hi => hinitle hi⟩
          have hspec := bfLoop_run_spec env hc env.creationLookup
            { t with creation_block := env.creationLookup }
            (le_of_lt hpos) hcbmin hI1 hinit
          refine ⟨hspec.1, hspec.2.1, hspec.2.2.1, hspec.2.2.2.1, ?_⟩
          intro h
          rw [hcb0] at h
          exact absurd h (lt_irrefl 0)
      · simp only [run_backfill, if_neg hst, if_pos hcb0, if_neg hpos]
        split
        · next hfin => exact absurd hfin.1 (lt_irrefl 0)
        · have hspec := bfLoop_run_spec env hc 0 t (le_refl 0) hmin0
            ⟨hmax0, hmin0, hcr0, hnin, hinitle⟩ hinit
          refine ⟨hspec.1, hspec.2.1, hspec.2.2.1, hspec.2.2.2.1, ?_⟩
          intro h
          rw [hcb0] at h
          exact absurd h (lt_irrefl 0)
    · have hpos : 0 < t.creation_block := lt_of_le_of_ne hcr0 (Ne.symm hcb0)
      simp only [run_backfill, if_neg hst, if_neg hcb0]
      split
      · refine ⟨⟨hmax0, hmin0, hcr0, ?_, fun _ => hinitle hinit⟩,
          rfl, le_refl _, hinit, fun _ => rfl⟩
        intro hfalse
        exact absurd hfalse (by simp [hinit])
      · next hfin =>
        have hcbmin : t.creation_block ≤ t.min_ingested_block := by
          rcases not_and_or.mp hfin with h | h
          · exact absurd hpos h
          · exact le_of_lt (not_le.mp h)
        have hspec := bfLoop_run_spec env hc t.creation_block t hcr0 hcbmin
          ⟨hmax0, hmin0, hcr0, hnin, hinitle⟩ hinit
        exact ⟨hspec.1, hspec.2.1, hspec.2.2.1, hspec.2.2.2.1,
          fun _ => hspec.2.2.2.2⟩

lemma run_token_init_spec (env : EntityEnv) (chain_tip : Int) (t : TState)
    (hw : WfEnv env) (hI : InvT t) (hninit : t.initialized = false) :
    InvT (run_token_init env chain_tip t).1 ∧
    t.max_ingested_block ≤
      (run_token_init env chain_tip t).1.max_ingested_block := by
  obtain ⟨hc, hlk⟩ := hw
  obtain ⟨hmax0, hmin0, hcr0, hnin, _⟩ := hI
  obtain ⟨hmaxz, hminz⟩ := hnin hninit
  simp only [run_token_init]
  split
  · -- empty batch: only initialized and creation_block change
    refine ⟨⟨?_, ?_, hlk, ?_, ?_⟩, ?_⟩
    · exact hmax0
    · exact hmin0
    · intro hfalse
      simp at hfalse
    · intro _
      show t.min_ingested_block ≤ t.max_ingested_block
      rw [hminz, hmaxz]
    · exact le_refl _
  · next hne =>
    have hbnd := fun x hx => hc 0 chain_tip SortDir.desc x hx
    have hmaxnn : (0 : Int) ≤ maxBlock (env.fetch 0 chain_tip SortDir.desc) :=
      le_maxBlock _ 0 hne (fun x hx => (hbnd x hx).1)
    have hminnn : (0 : Int) ≤ minBlock (env.fetch 0 chain_tip SortDir.desc) :=
      le_minBlock _ 0 hne (fun x hx => (hbnd x hx).1)
    split
    · -- trimmed-empty upload raised: only creation_block changed
      refine ⟨⟨hmax0, hmin0, hlk, fun _ => ⟨hmaxz, hminz⟩, ?_⟩, le_refl _⟩
      intro hi
      rw [hninit] at hi
      exact absurd hi (by decide)
    · -- success branch: both cursors established, initialized set
      split
      · refine ⟨⟨hmaxnn, hminnn, hlk, ?_, ?_⟩, ?_⟩
        · intro hfalse
          simp at hfalse
        · intro _
          exact minBlock_le_maxBlock _ hne
        · rw [hmaxz]
          exact hmaxnn
      · refine ⟨⟨hmaxnn, hminnn, hlk, ?_, ?_⟩, ?_⟩
        · intro hfalse
          simp at hfalse
        · intro _
          exact minBlock_le_maxBlock _ hne
        · rw [hmaxz]
          exact hmaxnn

lemma processEntity_spec (env : EntityEnv) (chain_tip : Int) (t : TState)
    (hw : WfEnv env) (hI : InvT t) :
    InvT (processEntity env chain_tip t).1 ∧
    MonoT t (processEntity env chain_tip t).1 ∧
    (t.initialized = true → 0 < t.creation_block →
      (processEntity env chain_tip t).1.creation_block = t.creation_block) := by
  by_cases hinit : t.initialized = false
  · simp only [processEntity, if_pos hinit]
    have h := run_token_init_spec env chain_tip t hw hI hinit
    refine ⟨h.1, ⟨h.2, fun hi => ?_⟩, fun hi _ => ?_⟩
    · rw [hinit] at hi
      exact absurd hi (by decide)
    · rw [hinit] at hi
      exact absurd hi (by decide)
  · have hinit' : t.initialized = true := by
      cases h : t.initialized
      · exact absurd h hinit
      · rfl
    simp only [processEntity, if_neg hinit]
    have hincf := run_incremental_frame env t chain_tip
    have hincm := run_incremental_max env t chain_tip hw.1
    have hI1 : InvT (run_incremental env t chain_tip).1 := by
      refine ⟨le_trans hI.1 hincm, ?_, ?_, ?_, ?_⟩
      · rw [hincf.1]
        exact hI.2.1
      · rw [hincf.2.2.2]
        exact hI.2.2.1
      · intro hfalse
        rw [hincf.2.1, hinit'] at hfalse
        exact absurd hfalse (by decide)
      · intro _
        rw [hincf.1]
        exact le_trans (hI.2.2.2.2 hinit') hincm
    have hinit1 : (run_incremental env t chain_tip).1.initialized = true := by
      rw [hincf.2.1]
      exact hinit'
    have hbf := run_backfill_spec env (run_incremental env t chain_tip).1 hw
      hI1 hinit1
    refine ⟨hbf.1, ⟨?_, fun _ => ⟨hbf.2.2.2.1, ?_⟩⟩, fun _ hpos => ?_⟩
    · rw [hbf.2.1]
      exact hincm
    · rw [hincf.1] at hbf
      exact hbf.2.2.1
    · have hpos1 : 0 < (run_incremental env t chain_tip).1.creation_block := by
        rw [hincf.2.2.2]
        exact hpos
      rw [hbf.2.2.2.2 hpos1, hincf.2.2.2]

lemma contract_quietEnv : Contract quietEnv := by
  intro s e d x hx
  simp [quietEnv] at hx

lemma wfEnv_quietEnv : WfEnv quietEnv :=
  ⟨contract_quietEnv, le_refl 0⟩

lemma contract_cexEnvA1 : Contract cexEnvA1 := by
  intro s e d x hx
  simp only [cexEnvA1] at hx
  split at hx
  · next hcond =>
    obtain ⟨hs, he, hd⟩ := hcond
    subst hs
    subst he
    simp only [List.mem_singleton] at hx
    subst hx
    exact ⟨by decide, by decide⟩
  · simp at hx

/-- C7: fetch_normal_batch makes at most 2 attempts (its result depends only
on the outcomes of attempts 0 and 1); when both attempts fail (an
exception, or a non-success status whose message is not the no-data
sentinel) it returns the empty sequence rather than raising (the model is
total: every exception class is caught inside the loop); a non-success
response with message "No transactions found" yields the empty sequence
immediately, independently of the second attempt; and a status "1"
response yields its result array unchanged. -/
theorem C7_fetch_retry_contract (f : Nat → FetchAttempt) :
    (∀ g : Nat → FetchAttempt, f 0 = g 0 → f 1 = g 1 →
      fetch_normal_batch f = fetch_normal_batch g) ∧
    (attemptFails (f 0) → attemptFails (f 1) → fetch_normal_batch f = []) ∧
    (∀ status message result, status ≠ "1" →
      message = "No transactions found" →
      f 0 = FetchAttempt.response status message result →
      fetch_normal_batch f = []) ∧
    (∀ message result, f 0 = FetchAttempt.response "1" message result →
      fetch_normal_batch f = result) := by
  have hfail : ∀ a, attemptFails a → fetchAttemptResult a = none := by
    intro a ha
    cases a with
    | transportErr => rfl
    | response status message result =>
      obtain ⟨h1, h2⟩ := ha
      simp [fetchAttemptResult, h1, h2]
  refine ⟨?_, ?_, ?_, ?_⟩
  · intro g h0 h1
    simp only [fetch_normal_batch, fetchRetry, h0, h1]
  · intro h0 h1
    simp only [fetch_normal_batch, fetchRetry, hfail _ h0, hfail _ h1]
  · intro status message result h1 h2 h0
    subst h2
    simp [fetch_normal_batch, fetchRetry, h0, fetchAttemptResult, h1]
  · intro message result h0
    simp [fetch_normal_batch, fetchRetry, h0, fetchAttemptResult]

/-- C7 witness: two transport failures produce the empty batch. -/
theorem C7_fetch_retry_contract_witness :
    fetch_normal_batch (fun _ => FetchAttempt.transportErr) = [] :=
  (C7_fetch_retry_contract (fun _ => FetchAttempt.transportErr)).2.1
    trivial trivial

/-- C8: when the initializer's single descending fetch returns zero records,
it still sets initialized := true and leaves both watermarks at 0 and
history_status at "unfilled" — the defaults the orchestrator established. -/
theorem C8_initializer_empty_history (env : EntityEnv) (chain_tip : Int)
    (hempty : env.fetch 0 chain_tip SortDir.desc = []) :
    (run_token_init env chain_tip defaultTState).1.initialized = true ∧
    (run_token_init env chain_tip defaultTState).1.max_ingested_block = 0 ∧
    (run_token_init env chain_tip defaultTState).1.min_ingested_block = 0 ∧
    (run_token_init env chain_tip defaultTState).1.history_status =
      "unfilled" := by
  have h : run_token_init env chain_tip defaultTState =
      ({ defaultTState with creation_block := env.creationLookup,
                            initialized := true }, false) := by
    simp [run_token_init, hempty]
  rw [h]
  exact ⟨rfl, rfl, rfl, rfl⟩

/-- C8 witness: the quiet environment fetches nothing. -/
theorem C8_initializer_empty_history_witness :
    (run_token_init quietEnv 40 defaultTState).1.initialized = true ∧
    (run_token_init quietEnv 40 defaultTState).1.max_ingested_block = 0 ∧
    (run_token_init quietEnv 40 defaultTState).1.min_ingested_block = 0 ∧
    (run_token_init quietEnv 40 defaultTState).1.history_status =
      "unfilled" :=
  C8_initializer_empty_history quietEnv 40 rfl

/-- C5 counterexample: backfill with unknown origin (creation_block = 0) and
floor 1000; the descending fetch returns a partial page whose lowest block
is 250.  The code marks filled but sets min_ingested_block :=
creation_block = 0, not the lowest observed block 250 as the claim
states. -/
theorem C5_partial_page_unknown_origin_cex :
    cexBfSt.creation_block = 0 ∧
    cexBfEnv.fetch 0 1000 SortDir.desc ≠ [] ∧
    (cexBfEnv.fetch 0 1000 SortDir.desc).length < MAX_RESULT_SIZE ∧
    minBlock (cexBfEnv.fetch 0 1000 SortDir.desc) = 250 ∧
    (run_backfill cexBfEnv cexBfSt).1.history_status = "filled" ∧
    (run_backfill cexBfEnv cexBfSt).1.min_ingested_block = 0 ∧
    ¬ ((0 : Int) = 250) := by decide

/-- C5 amended: on a non-empty partial page (length below PAGE_SIZE) that
the trimmer does not empty and whose upload succeeds, the backward walker
marks history_status = "filled" and sets min_ingested_block :=
creation_block in every case — so 0, not the lowest observed block, when
the origin is unknown. -/
theorem C5_amended_partial_page_snaps_to_creation (env : EntityEnv)
    (creation_block current_floor : Int) (fuel iter : Nat) (t : TState)
    (hne : env.fetch (if 0 < creation_block then creation_block else 0)
      current_floor SortDir.desc ≠ [])
    (htr : trim_ingestion (env.fetch (if 0 < creation_block then
      creation_block else 0) current_floor SortDir.desc) ≠ none)
    (hsv : env.saveBf iter = true)
    (hlen : (env.fetch (if 0 < creation_block then creation_block else 0)
      current_floor SortDir.desc).length < MAX_RESULT_SIZE) :
    bfLoop env creation_block (fuel + 1) iter current_floor t =
      ({ t with history_status := "filled",
                min_ingested_block := creation_block }, false) := by
  obtain ⟨kept, hk⟩ := Option.ne_none_iff_exists'.mp htr
  simp only [bfLoop, if_neg hne, hk]
  rw [if_neg (by simp [hsv] : ¬ env.saveBf iter = false)]
  rw [if_pos hlen]

/-- C5 amended witness: a one-record page with known origin 3 snaps the
floor to 3 and marks filled. -/
theorem C5_amended_partial_page_snaps_to_creation_witness :
    bfLoop wTx5Env 3 1 0 1000 cexBfSt =
      ({ cexBfSt with history_status := "filled",
                      min_ingested_block := 3 }, false) :=
  C5_amended_partial_page_snaps_to_creation wTx5Env 3 1000 0 0 cexBfSt
    (by decide) (by decide) rfl (by decide)

/-- C9 counterexample: run_token_init overwrites creation_block
unconditionally (ingest.py line 80).  On an uninitialized entity whose
creation_block is already 7 (left by a failed earlier initialization), a
failed lookup resets it to 0. -/
theorem C9_initializer_overwrites_creation_block_cex :
    cexC9St.creation_block = 7 ∧
    cexC9St.initialized = false ∧
    (run_token_init quietEnv 40 cexC9St).1.creation_block = 0 ∧
    ¬ ((0 : Int) = 7) := by decide

lemma run_backfill_creation_frame (env : EntityEnv) (t : TState)
    (hpos : 0 < t.creation_block) :
    (run_backfill env t).1.creation_block = t.creation_block := by
  have hcb0 : ¬ t.creation_block = 0 := by
    intro h
    rw [h] at hpos
    exact lt_irrefl 0 hpos
  by_cases hst : t.history_status = "filled"
  · simp only [run_backfill, if_pos hst]
  · simp only [run_backfill, if_neg hst, if_neg hcb0]
    split
    · rfl
    · exact (bfLoop_frame env t.creation_block BATCHES_PER_RUN 0
        t.min_ingested_block t).2.2

/-- C9 amended: the forward and backward walkers never change a non-zero
creation_block, and an initialized entity's whole per-run processing step
never changes it; only the token initializer — which runs only on
uninitialized entities — overwrites creation_block unconditionally with a
fresh lookup, so immutability can fail for an entity persisted with
initialized = false after a partial initialization. -/
theorem C9_amended_creation_block_immutable (env : EntityEnv)
    (chain_tip : Int) (t : TState) (hpos : 0 < t.creation_block) :
    (run_incremental env t chain_tip).1.creation_block = t.creation_block ∧
    (run_backfill env t).1.creation_block = t.creation_block ∧
    (t.initialized = true →
      (processEntity env chain_tip t).1.creation_block = t.creation_block) := by
  refine ⟨(run_incremental_frame env t chain_tip).2.2.2,
    run_backfill_creation_frame env t hpos, fun hi => ?_⟩
  simp only [processEntity, if_neg (by simp [hi] : ¬ t.initialized = false)]
  have hf := (run_incremental_frame env t chain_tip).2.2.2
  have hpos1 : 0 < (run_incremental env t chain_tip).1.creation_block := by
    rw [hf]
    exact hpos
  rw [run_backfill_creation_frame env _ hpos1, hf]

/-- C9 amended witness: processing an initialized entity with
creation_block 3 leaves creation_block 3 in all three forms. -/
theorem C9_amended_creation_block_immutable_witness :
    (run_incremental quietEnv
        { tMid with creation_block := 3 } 40).1.creation_block = 3 ∧
    (run_backfill quietEnv
        { tMid with creation_block := 3 }).1.creation_block = 3 ∧
    (processEntity quietEnv 40
        { tMid with creation_block := 3 }).1.creation_block = 3 := by
  have h := C9_amended_creation_block_immutable quietEnv 40
    { tMid with creation_block := 3 } (by decide)
  exact ⟨h.1, h.2.1, h.2.2 rfl⟩

/-- C2: utils.get_chain_tip catches every failure internally and returns 0
instead of raising, so the abort handler in ingest.main is dead code: with
a failed tip request the run still processes entities — here it
initializes token A (setting initialized := true) and persists a save —
while the claim (and the spec's FatalRunError taxonomy) require that no
entity is processed and no state is persisted. -/
theorem C2_tip_failure_is_not_fatal :
    get_chain_tip TipResp.err = 0 ∧
    (mainRun cexTipEnv [{ symbol := "A", address := "a" }] []).2 ≠ [] ∧
    lookupT (mainRun cexTipEnv [{ symbol := "A", address := "a" }] []).1 "A" =
      some { defaultTState with initialized := true } := by decide

/-- C10: save_state serializes the whole mapping, so a save reached after
processing any entity also persists earlier in-run mutations to other
entities' cursors.  Token A's initialization raises (upload failure) after
writing creation_block := 7, so A's own save is skipped; B is processed
next and saved, and the run's single save already carries A's partial
mutation (A still uninitialized, creation_block = 7), durably. -/
theorem C10_whole_state_save_persists_partial_mutations :
    (processEntity cexEnvA1 40 defaultTState).2 = true ∧
    cexRun1.2 =
      [[("B", tMid), ("A", { defaultTState with creation_block := 7 })]] ∧
    lookupT [("B", tMid), ("A", { defaultTState with creation_block := 7 })]
      "A" = some { defaultTState with creation_block := 7 } := by decide

/-- C3 counterexample: the forward walker fetches the non-empty raw batch
[cexErrTx] (one record at block 50 that the trimmer drops), and stops
WITHOUT updating the watermark: max_ingested_block stays 10 instead of
becoming the raw batch's highest block 50. -/
theorem C3_trim_empty_skips_watermark_cex :
    cexTrimEnv.fetch 11 100 SortDir.asc ≠ [] ∧
    trim_ingestion (cexTrimEnv.fetch 11 100 SortDir.asc) = none ∧
    maxBlock (cexTrimEnv.fetch 11 100 SortDir.asc) = 50 ∧
    (run_incremental cexTrimEnv cexTrimSt 100).1.max_ingested_block = 10 ∧
    ¬ ((10 : Int) = 50) := by decide

/-- C3 amended: when trimming retains at least one record, the watermark
update is computed from the raw batch alone (the forward walker writes the
raw maximum, the backward walker the raw minimum, regardless of which rows
the sink keeps); when trimming retains zero records the walker stops
without updating the watermark at all. -/
theorem C3_amended_watermark_from_raw_batch (env : EntityEnv)
    (chain_tip current_start current_floor creation_block : Int)
    (fuel iter : Nat) (t : TState) :
    (trim_ingestion (env.fetch current_start chain_tip SortDir.asc) = none →
      incLoop env chain_tip (fuel + 1) iter current_start t = (t, false)) ∧
    (∀ kept, trim_ingestion (env.fetch current_start chain_tip SortDir.asc) =
        some kept →
      env.saveInc iter = true →
      (env.fetch current_start chain_tip SortDir.asc).length <
        MAX_RESULT_SIZE →
      (incLoop env chain_tip (fuel + 1) iter current_start
          t).1.max_ingested_block =
        maxBlock (env.fetch current_start chain_tip SortDir.asc)) ∧
    (env.fetch (if 0 < creation_block then creation_block else 0)
        current_floor SortDir.desc ≠ [] →
      trim_ingestion (env.fetch (if 0 < creation_block then creation_block
        else 0) current_floor SortDir.desc) = none →
      bfLoop env creation_block (fuel + 1) iter current_floor t =
        (t, false)) ∧
    (∀ kept, trim_ingestion (env.fetch (if 0 < creation_block then
        creation_block else 0) current_floor SortDir.desc) = some kept →
      env.saveBf iter = true →
      ¬ (env.fetch (if 0 < creation_block then creation_block else 0)
          current_floor SortDir.desc).length < MAX_RESULT_SIZE →
      ¬ (nextFloorBf current_floor (minBlock (env.fetch (if 0 <
            creation_block then creation_block else 0) current_floor
            SortDir.desc)) ≤ creation_block ∧ 0 < creation_block) →
      (bfLoop env creation_block 1 iter current_floor
          t).1.min_ingested_block =
        minBlock (env.fetch (if 0 < creation_block then creation_block
          else 0) current_floor SortDir.desc)) := by
  refine ⟨fun htr => ?_, fun kept htr hsv hlen => ?_,
    fun hne htr => ?_, fun kept htr hsv hlen hcross => ?_⟩
  · simp only [incLoop]
    split
    · rfl
    · rw [htr]
  · have hb : env.fetch current_start chain_tip SortDir.asc ≠ [] := by
      intro h
      rw [h] at htr
      exact absurd htr (by simp [trim_ingestion])
    simp only [incLoop, if_neg hb, htr]
    rw [if_neg (by simp [hsv] : ¬ env.saveInc iter = false)]
    rw [if_pos hlen]
  · simp only [bfLoop, if_neg hne, htr]
  · have hb : env.fetch (if 0 < creation_block then creation_block else 0)
        current_floor SortDir.desc ≠ [] := by
      intro h
      rw [h] at htr
      exact absurd htr (by simp [trim_ingestion])
    simp only [bfLoop, if_neg hb, htr]
    rw [if_neg (by simp [hsv] : ¬ env.saveBf iter = false)]
    rw [if_neg hlen, if_neg hcross]

/-- C3 amended witness: a retained one-record page at block 5 moves the
forward watermark to the raw maximum 5; a dropped-empty page leaves both
walkers' states untouched. -/
theorem C3_amended_watermark_from_raw_batch_witness :
    (incLoop wTx5Env 100 1 0 11 cexTrimSt).1.max_ingested_block =
      maxBlock (wTx5Env.fetch 11 100 SortDir.asc) ∧
    incLoop cexTrimEnv 100 1 0 11 cexTrimSt = (cexTrimSt, false) ∧
    bfLoop wErrEnv 3 1 0 900 cexTrimSt = (cexTrimSt, false) := by
  refine ⟨?_, ?_, ?_⟩
  · exact (C3_amended_watermark_from_raw_batch wTx5Env 100 11 0 0 0 0
      cexTrimSt).2.1 [wTx5] (by decide) rfl (by decide)
  · exact (C3_amended_watermark_from_raw_batch cexTrimEnv 100 11 0 0 0 0
      cexTrimSt).1 (by decide)
  · exact (C3_amended_watermark_from_raw_batch wErrEnv 100 11 900 3 0 0
      cexTrimSt).2.2.1 (by decide) (by decide)

/-- C4: for both walkers, a full page (exactly PAGE_SIZE records) lying
entirely in the boundary block advances the boundary by exactly one block
(forward: one past the maximum; backward: one below the minimum), so the
identical request is never re-issued; in every other case the next
boundary equals the batch's extreme block (the deliberate one-block
overlap). -/
theorem C4_stuck_guard_boundary_advance (batch : List Tx) (s f : Int) :
    (batch.length = MAX_RESULT_SIZE → (∀ x ∈ batch, x.blockNumber = s) →
      nextStartInc s (maxBlock batch) = s + 1 ∧
      nextStartInc s (maxBlock batch) ≠ s) ∧
    (batch.length = MAX_RESULT_SIZE → (∀ x ∈ batch, x.blockNumber = f) →
      nextFloorBf f (minBlock batch) = f - 1 ∧
      nextFloorBf f (minBlock batch) ≠ f) ∧
    (maxBlock batch ≠ s → nextStartInc s (maxBlock batch) = maxBlock batch) ∧
    (minBlock batch ≠ f → nextFloorBf f (minBlock batch) = minBlock batch) := by
  have hne : batch.length = MAX_RESULT_SIZE → batch ≠ [] := by
    intro hl hnil
    rw [hnil] at hl
    simp [MAX_RESULT_SIZE] at hl
  refine ⟨fun hl hall => ?_, fun hl hall => ?_, fun hns => ?_, fun hns => ?_⟩
  · rw [maxBlock_eq_of_all batch s (hne hl) hall]
    unfold nextStartInc
    rw [if_pos rfl]
    exact ⟨rfl, by omega⟩
  · rw [minBlock_eq_of_all batch f (hne hl) hall]
    unfold nextFloorBf
    rw [if_pos rfl]
    exact ⟨rfl, by omega⟩
  · unfold nextStartInc
    rw [if_neg (fun h => hns h.symm)]
  · unfold nextFloorBf
    rw [if_neg (fun h => hns h.symm)]

/-- C4 witness: a full page entirely in block 77 advances the forward
boundary to 78 and the backward boundary to 76; a small batch at block 9
yields the extreme block itself as next boundary. -/
theorem C4_stuck_guard_boundary_advance_witness :
    nextStartInc 77 (maxBlock wFloodBatch) = 78 ∧
    nextFloorBf 77 (minBlock wFloodBatch) = 76 ∧
    nextStartInc 5 (maxBlock wSmallBatch) = maxBlock wSmallBatch ∧
    nextFloorBf 5 (minBlock wSmallBatch) = minBlock wSmallBatch := by
  have hlen : wFloodBatch.length = MAX_RESULT_SIZE := by
    simp [wFloodBatch]
  have hall : ∀ x ∈ wFloodBatch, x.blockNumber = (77 : Int) := by
    intro x hx
    simp only [wFloodBatch] at hx
    rw [List.eq_of_mem_replicate hx]
    rfl
  refine ⟨?_, ?_, ?_, ?_⟩
  · rw [((C4_stuck_guard_boundary_advance wFloodBatch 77 77).1 hlen hall).1]
    decide
  · rw [((C4_stuck_guard_boundary_advance wFloodBatch 77 77).2.1 hlen
      hall).1]
    decide
  · exact (C4_stuck_guard_boundary_advance wSmallBatch 5 5).2.2.1 (by decide)
  · exact (C4_stuck_guard_boundary_advance wSmallBatch 5 5).2.2.2 (by decide)

lemma lookupT_setT_self (gs : GlobalState) (sym : String) (v : TState) :
    lookupT (setT gs sym v) sym = some v := by
  induction gs with
  | nil => simp [setT, lookupT]
  | cons p rest ih =>
    obtain ⟨k, w⟩ := p
    by_cases hk : k = sym
    · simp [setT, hk, lookupT]
    · simp [setT, hk, lookupT, ih]

lemma lookupT_setT_ne (gs : GlobalState) (sym k : String) (v : TState)
    (h : k ≠ sym) : lookupT (setT gs k v) sym = lookupT gs sym := by
  induction gs with
  | nil => simp [setT, lookupT, h]
  | cons p rest ih =>
    obtain ⟨k', w⟩ := p
    by_cases hk : k' = k
    · subst hk
      simp [setT, lookupT, h]
    · simp [setT, hk, lookupT, ih]

lemma monoT_refl (a : TState) : MonoT a a :=
  ⟨le_refl _, fun h => ⟨h, le_refl _⟩⟩

lemma monoT_trans {a b c : TState} (h1 : MonoT a b) (h2 : MonoT b c) :
    MonoT a c :=
  ⟨le_trans h1.1 h2.1, fun ha =>
    ⟨(h2.2 (h1.2 ha).1).1, le_trans (h2.2 (h1.2 ha).1).2 (h1.2 ha).2⟩⟩

lemma monoG_refl (g : GlobalState) : MonoG g g :=
  fun _ a h => ⟨a, h, monoT_refl a⟩

lemma monoG_trans {g1 g2 g3 : GlobalState} (h1 : MonoG g1 g2)
    (h2 : MonoG g2 g3) : MonoG g1 g3 := by
  intro sym a ha
  obtain ⟨b, hb, hab⟩ := h1 sym a ha
  obtain ⟨c, hc, hbc⟩ := h2 sym b hb
  exact ⟨c, hc, monoT_trans hab hbc⟩

lemma invG_setT {gs : GlobalState} {sym : String} {v : TState}
    (hg : InvG gs) (hv : InvT v) : InvG (setT gs sym v) := by
  intro s u hu
  by_cases hs : s = sym
  · subst hs
    rw [lookupT_setT_self] at hu
    injection hu with h1
    rw [← h1]
    exact hv
  · rw [lookupT_setT_ne _ _ _ _ (Ne.symm hs)] at hu
    exact hg s u hu

lemma monoG_setT {gs : GlobalState} {sym : String} {told v : TState}
    (hl : lookupT gs sym = some told) (hm : MonoT told v) :
    MonoG gs (setT gs sym v) := by
  intro s a ha
  by_cases hs : s = sym
  · subst hs
    rw [hl] at ha
    injection ha with h1
    rw [← h1]
    exact ⟨v, lookupT_setT_self _ _ _, hm⟩
  · refine ⟨a, ?_, monoT_refl a⟩
    rw [lookupT_setT_ne _ _ _ _ (Ne.symm hs)]
    exact ha

lemma monoG_insert {gs : GlobalState} {sym : String}
    (hnone : lookupT gs sym = none) (v : TState) :
    MonoG gs (setT gs sym v) := by
  intro s a ha
  by_cases hs : s = sym
  · subst hs
    rw [hnone] at ha
    exact absurd ha (by simp)
  · refine ⟨a, ?_, monoT_refl a⟩
    rw [lookupT_setT_ne _ _ _ _ (Ne.symm hs)]
    exact ha

lemma invT_default : InvT defaultTState := by
  refine ⟨le_refl 0, le_refl 0, le_refl 0, fun _ => ⟨rfl, rfl⟩, fun h => ?_⟩
  simp [defaultTState] at h

lemma mainLoop_spec (env : RunEnv) (chain_tip : Int)
    (hwf : ∀ sym, WfEnv (env.perToken sym)) :
    ∀ (toks : List Token) (gs : GlobalState) (acc : List GlobalState),
      InvG gs →
      InvG (mainLoop env chain_tip toks gs acc).1 ∧
      MonoG gs (mainLoop env chain_tip toks gs acc).1 ∧
      ∀ s ∈ (mainLoop env chain_tip toks gs acc).2,
        s ∈ acc ∨ (InvG s ∧ MonoG gs s) := by
  intro toks
  induction toks with
  | nil => intro gs acc hg; exact ⟨hg, monoG_refl gs, fun s hs => Or.inl hs⟩
  | cons tok rest ih =>
    intro gs acc hg
    cases hcase : lookupT gs tok.symbol with
    | none =>
      simp only [mainLoop, hcase, lookupT_setT_self, Option.getD_some]
      have hPE := processEntity_spec (env.perToken tok.symbol) chain_tip
        defaultTState (hwf _) invT_default
      have hinv1 : InvG (setT gs tok.symbol defaultTState) :=
        invG_setT hg invT_default
      have hmono1 : MonoG gs (setT gs tok.symbol defaultTState) :=
        monoG_insert hcase defaultTState
      have hinv2 : InvG (setT (setT gs tok.symbol defaultTState) tok.symbol
          (processEntity (env.perToken tok.symbol) chain_tip defaultTState).1) :=
        invG_setT hinv1 hPE.1
      have hmono2 : MonoG gs (setT (setT gs tok.symbol defaultTState) tok.symbol
          (processEntity (env.perToken tok.symbol) chain_tip defaultTState).1) :=
        monoG_trans hmono1 (monoG_setT (lookupT_setT_self _ _ _) hPE.2.1)
      split
      · have hi := ih _ acc hinv2
        refine ⟨hi.1, monoG_trans hmono2 hi.2.1, fun s hs => ?_⟩
        rcases hi.2.2 s hs with h | ⟨his, hms⟩
        · exact Or.inl h
        · exact Or.inr ⟨his, monoG_trans hmono2 hms⟩
      · have hi := ih _ (acc ++ [setT (setT gs tok.symbol defaultTState)
          tok.symbol
          (processEntity (env.perToken tok.symbol) chain_tip defaultTState).1])
          hinv2
        refine ⟨hi.1, monoG_trans hmono2 hi.2.1, fun s hs => ?_⟩
        rcases hi.2.2 s hs with hsa | ⟨his, hms⟩
        · rcases List.mem_append.mp hsa with h | h
          · exact Or.inl h
          · rw [List.mem_singleton.mp h]
            exact Or.inr ⟨hinv2, hmono2⟩
        · exact Or.inr ⟨his, monoG_trans hmono2 hms⟩
    | some t0 =>
      simp only [mainLoop, hcase, Option.getD_some]
      have hIt0 : InvT t0 := hg _ _ hcase
      have hPE := processEntity_spec (env.perToken tok.symbol) chain_tip t0
        (hwf _) hIt0
      have hinv2 : InvG (setT gs tok.symbol
          (processEntity (env.perToken tok.symbol) chain_tip t0).1) :=
        invG_setT hg hPE.1
      have hmono2 : MonoG gs (setT gs tok.symbol
          (processEntity (env.perToken tok.symbol) chain_tip t0).1) :=
        monoG_setT hcase hPE.2.1
      split
      · have hi := ih _ acc hinv2
        refine ⟨hi.1, monoG_trans hmono2 hi.2.1, fun s hs => ?_⟩
        rcases hi.2.2 s hs with h | ⟨his, hms⟩
        · exact Or.inl h
        · exact Or.inr ⟨his, monoG_trans hmono2 hms⟩
      · have hi := ih _ (acc ++ [setT gs tok.symbol
          (processEntity (env.perToken tok.symbol) chain_tip t0).1]) hinv2
        refine ⟨hi.1, monoG_trans hmono2 hi.2.1, fun s hs => ?_⟩
        rcases hi.2.2 s hs with hsa | ⟨his, hms⟩
        · rcases List.mem_append.mp hsa with h | h
          · exact Or.inl h
          · rw [List.mem_singleton.mp h]
            exact Or.inr ⟨hinv2, hmono2⟩
        · exact Or.inr ⟨his, monoG_trans hmono2 hms⟩

/-- C1 counterexample: all three entity environments obey the remote-API
range contract, yet the persisted min_ingested_block of token A increases
across the run boundary.  Run 1: A's initialization raises after its
upload fails, so A stays uninitialized with min 0, and B's save persists
the whole mapping (run 1's one save is its final state).  Run 2, started
from that persisted state, initializes A from a batch at block 30 and
persists min_ingested_block = 30 > 0. -/
theorem C1_min_watermark_not_monotone_cex :
    Contract cexEnvA1 ∧ Contract cexEnvA2 ∧ Contract quietEnv ∧
    cexRun1.2 = [cexRun1.1] ∧
    (lookupT cexRun1.1 "A").map TState.min_ingested_block = some 0 ∧
    cexRun2.2.getLast? = some cexRun2.1 ∧
    (lookupT cexRun2.1 "A").map TState.min_ingested_block = some 30 ∧
    ¬ ((30 : Int) ≤ 0) := by
  refine ⟨contract_cexEnvA1, fun s e d x hx => contract_cexEnvA1 s e d x hx,
    contract_quietEnv, by decide, by decide, by decide, by decide, by decide⟩

/-- C1 amended: across any single orchestrator run over well-behaved
environments, for every persisted snapshot and every entity present at run
start, max_ingested_block never decreases, and min_ingested_block never
increases for every entity whose earlier persisted state was already
initialized.  (An entity persisted uninitialized — possible only when its
initialization failed mid-run and a later entity's save persisted the
default cursor — can have its min raised from the default 0 by a later
successful initialization, which is the one deviation from the claim.) -/
theorem C1_amended_watermark_monotonicity (env : RunEnv)
    (toks : List Token) (gs : GlobalState)
    (hwf : ∀ sym, WfEnv (env.perToken sym)) (hg : InvG gs) :
    ∀ s ∈ (mainRun env toks gs).2, ∀ sym a b,
      lookupT gs sym = some a → lookupT s sym = some b →
      a.max_ingested_block ≤ b.max_ingested_block ∧
      (a.initialized = true →
        b.min_ingested_block ≤ a.min_ingested_block) := by
  intro s hs sym a b ha hb
  rcases (mainLoop_spec env (get_chain_tip env.tip) hwf toks gs []
    hg).2.2 s hs with hacc | ⟨_, hmono⟩
  · exact absurd hacc (List.not_mem_nil s)
  · obtain ⟨b', hb', hm⟩ := hmono sym a ha
    rw [hb] at hb'
    injection hb' with h1
    rw [← h1] at hm
    exact ⟨hm.1, fun hi => (hm.2 hi).2⟩

/-- C1 amended witness: the quiet run's one persisted snapshot keeps token
T's watermarks unchanged. -/
theorem C1_amended_watermark_monotonicity_witness :
    tMid.max_ingested_block ≤ tMid.max_ingested_block ∧
    (tMid.initialized = true →
      tMid.min_ingested_block ≤ tMid.min_ingested_block) := by
  have hwf : ∀ sym, WfEnv (quietRunEnv.perToken sym) :=
    fun _ => wfEnv_quietEnv
  have hg : InvG wGs := by
    intro sym t h
    simp only [wGs, lookupT] at h
    split at h
    · injection h with h1
      rw [← h1]
      exact ⟨by decide, by decide, by decide, fun hf => by simp [tMid] at hf,
        fun _ => by decide⟩
    · exact absurd h (by simp)
  exact C1_amended_watermark_monotonicity quietRunEnv [wTok] wGs hwf hg
    [("T", tMid)] (by decide) "T" tMid tMid (by decide) (by decide)

/-- C6: over well-behaved environments and a starting mapping satisfying
the reachability invariant, every snapshot the orchestrator persists (the
save after an initialization and the save after each entity's
forward-then-backward processing) has min_ingested_block ≤
max_ingested_block for every initialized entity. -/
theorem C6_initialized_min_le_max (env : RunEnv) (toks : List Token)
    (gs : GlobalState) (hwf : ∀ sym, WfEnv (env.perToken sym))
    (hg : InvG gs) :
    ∀ s ∈ (mainRun env toks gs).2, ∀ sym t, lookupT s sym = some t →
      t.initialized = true →
      t.min_ingested_block ≤ t.max_ingested_block := by
  intro s hs sym t hlk hinit
  rcases (mainLoop_spec env (get_chain_tip env.tip) hwf toks gs []
    hg).2.2 s hs with hacc | ⟨hinvs, _⟩
  · exact absurd hacc (List.not_mem_nil s)
  · exact (hinvs sym t hlk).2.2.2.2 hinit

/-- C6 witness: in the quiet run's persisted snapshot, initialized token T
has min 50 ≤ max 100. -/
theorem C6_initialized_min_le_max_witness :
    tMid.min_ingested_block ≤ tMid.max_ingested_block := by
  have hwf : ∀ sym, WfEnv (quietRunEnv.perToken sym) :=
    fun _ => wfEnv_quietEnv
  have hg : InvG wGs := by
    intro sym t h
    simp only [wGs, lookupT] at h
    split at h
    · injection h with h1
      rw [← h1]
      exact ⟨by decide, by decide, by decide, fun hf => by simp [tMid] at hf,
        fun _ => by decide⟩
    · exact absurd h (by simp)
  exact C6_initialized_min_le_max quietRunEnv [wTok] wGs hwf hg
    [("T", tMid)] (by decide) "T" tMid (by decide) rfl
